import Mathlib

/-!
Verification development for the RexDB client data layer: the
suspense-compatible resource cache (`rex-graphql/Resource.js`) and the
schema-driven GraphQL query synthesizer (`buildQueryAST` /
`buildSelectionSet` / `resolveField`).  Every definition is a shallow
embedding of the corresponding JavaScript source.
-/

set_option autoImplicit false

namespace RexDB

/-! ## JSON values and `JSON.stringify`

The cache key is computed as `JSON.stringify(params || {})`.  We model JSON
values with objects as ordered key/value lists (JavaScript objects preserve
string-key insertion order, and `JSON.stringify` serializes keys in that
order).  String escaping is not modelled: keys and string values are assumed
to contain no characters needing escapes, which is irrelevant to key-order
questions. -/

inductive JValue where
  | jnull
  | jbool (b : Bool)
  | jnum (n : Int)
  | jstr (s : String)
  | jarr (elems : List JValue)
  | jobj (fields : List (String × JValue))

mutual

def stringify : JValue → String
  | .jnull => "null"
  | .jbool true => "true"
  | .jbool false => "false"
  | .jnum n => toString n
  | .jstr s => "\"" ++ s ++ "\""
  | .jarr xs => "[" ++ stringifyArr xs ++ "]"
  | .jobj fs => "\x7b" ++ stringifyObj fs ++ "\x7d"

def stringifyArr : List JValue → String
  | [] => ""
  | [x] => stringify x
  | x :: y :: xs => stringify x ++ "," ++ stringifyArr (y :: xs)

def stringifyObj : List (String × JValue) → String
  | [] => ""
  | [(k, v)] => "\"" ++ k ++ "\":" ++ stringify v
  | (k, v) :: f :: fs => "\"" ++ k ++ "\":" ++ stringify v ++ "," ++ stringifyObj (f :: fs)

end

/-- JavaScript falsiness of a JSON value, as tested by `params || {}`:
`null`, `false`, `0` and `""` are falsy. -/
def jsFalsy : JValue → Bool
  | .jnull => true
  | .jbool b => !b
  | .jnum n => n == 0
  | .jstr s => s == ""
  | .jarr _ => false
  | .jobj _ => false

/-- Model of `JSON.stringify(params || {})`: absent (`undefined`) or falsy
`params` serialize as the empty object. -/
def cacheKey (params : Option JValue) : String :=
  match params with
  | none => stringify (.jobj [])
  | some v => if jsFalsy v then stringify (.jobj []) else stringify v

mutual

/-- Structural equality of JSON values (objects compared fieldwise in
order). -/
def jeq : JValue → JValue → Bool
  | .jnull, .jnull => true
  | .jbool a, .jbool b => a == b
  | .jnum a, .jnum b => a == b
  | .jstr a, .jstr b => a == b
  | .jarr a, .jarr b => jeqArr a b
  | .jobj a, .jobj b => jeqObj a b
  | _, _ => false

def jeqArr : List JValue → List JValue → Bool
  | [], [] => true
  | x :: xs, y :: ys => jeq x y && jeqArr xs ys
  | _, _ => false

def jeqObj : List (String × JValue) → List (String × JValue) → Bool
  | [], [] => true
  | (k1, v1) :: xs, (k2, v2) :: ys => k1 == k2 && jeq v1 v2 && jeqObj xs ys
  | _, _ => false

end

/-- First-match lookup among an object's fields. -/
def jlookup (k : String) : List (String × JValue) → Option JValue
  | [] => none
  | (k', v) :: rest => if k' = k then some v else jlookup k rest

/-- Structural equality of two flat JSON objects viewed as key→value maps
(first occurrence wins, key order ignored), decided by enumerating the keys
present on either side. -/
def objMapEquiv (o1 o2 : List (String × JValue)) : Bool :=
  (o1.map Prod.fst ++ o2.map Prod.fst).all fun k =>
    match jlookup k o1, jlookup k o2 with
    | none, none => true
    | some v1, some v2 => jeq v1 v2
    | _, _ => false

/-! ## The resource cache state machine (`Resource.js`)

`Map` and `Set` are modelled as lists: `Map.set` replaces an existing key in
place (keeping its position in iteration order) and otherwise appends;
`Map.get` is first-match lookup.  Promises are modelled by numeric handles.
-/

/-- JavaScript `Map.get`. -/
def mapGet {α : Type} (k : String) : List (String × α) → Option α
  | [] => none
  | (k', v) :: rest => if k' = k then some v else mapGet k rest

/-- JavaScript `Map.set`: update in place when the key exists (iteration
order keeps the original position), append otherwise. -/
def mapSet {α : Type} (k : String) (v : α) : List (String × α) → List (String × α)
  | [] => [(k, v)]
  | (k', v') :: rest => if k' = k then (k, v) :: rest else (k', v') :: mapSet k v rest

/-- The four-state per-key lifecycle of `ResourceState` in `Resource.js`. -/
inductive ResourceState (V E : Type) where
  | init
  | inProgress (promise : Nat)
  | completed (value : V)
  | error (e : E)
  deriving DecidableEq, Repr

/-- A resource's cache: the `Map<string, ResourceState<V>>`. -/
abbrev Cache (V E : Type) : Type := List (String × ResourceState V E)

inductive CachePolicy where
  | regular
  | noClear
  deriving DecidableEq, Repr

/-- Listeners (the `refetch` callbacks in `subcriptions`) are identified by
numeric ids. -/
abbrev Listener : Type := Nat

/-- One registered resource: its cache policy, its key→state cache and its
`subcriptions` set (modelled as a list; JavaScript `Set` iterates each
element once). -/
structure Resource (V E : Type) where
  cachePolicy : CachePolicy
  cache : Cache V E
  subcriptions : List Listener

/-- What one call of `unstable_useResource_impl` does for the caller:
throw a promise (suspend), return a value, or throw the cached error. -/
inductive ReadResult (V E : Type) where
  | suspend (promise : Nat)
  | value (v : V)
  | raise (e : E)
  deriving DecidableEq, Repr

structure ReadOut (V E : Type) where
  cache : Cache V E
  result : ReadResult V E
  fetchInvoked : Bool
  deriving DecidableEq, Repr

/-- One synchronous pass of `unstable_useResource_impl` over the cache for
`key`.  A missing entry counts as `init`; on `init` the fetch is invoked
(producing the fresh promise handle `freshPromise`), the key is set to
`in-progress` and the promise is thrown; on `in-progress` the same stored
promise is rethrown with no fetch; `completed` returns the value;
`error` rethrows the stored error. -/
def readImpl {V E : Type} (cache : Cache V E) (key : String) (freshPromise : Nat) :
    ReadOut V E :=
  match ((mapGet key cache).getD .init : ResourceState V E) with
  | .init =>
      { cache := mapSet key (.inProgress freshPromise) cache
        result := .suspend freshPromise
        fetchInvoked := true }
  | .inProgress p => { cache := cache, result := .suspend p, fetchInvoked := false }
  | .completed v => { cache := cache, result := .value v, fetchInvoked := false }
  | .error e => { cache := cache, result := .raise e, fetchInvoked := false }

/-- Settlement of the in-flight fetch: the promise's resolution/rejection
callbacks unconditionally write `completed`/`error` for the key into the
cache map they captured. -/
def settle {V E : Type} (cache : Cache V E) (key : String) (outcome : Except E V) :
    Cache V E :=
  match outcome with
  | .ok v => mapSet key (.completed v) cache
  | .error e => mapSet key (.error e) cache

/-- A sequence of `n` reads of one key, all arriving before the fetch
settles (no settlement happens in between).  Returns the final cache, the
list of per-read outcomes in order, and the total number of fetch
invocations.  Fresh promise handles are drawn from the counter `fresh`. -/
def readsBeforeSettle {V E : Type} (cache : Cache V E) (key : String) (fresh : Nat) :
    Nat → Cache V E × List (ReadResult V E) × Nat
  | 0 => (cache, [], 0)
  | n + 1 =>
      let o := readImpl cache key fresh
      let (c, rs, cnt) := readsBeforeSettle o.cache key (fresh + 1) n
      (c, o.result :: rs, (if o.fetchInvoked then 1 else 0) + cnt)

/-- Effect of `clearAllCaches` on one registry entry: a `"no-clear"` resource
is skipped (`continue`), any other has `cache.clear()` applied and each
callback of its `subcriptions` invoked. -/
def clearResource {V E : Type} (r : Resource V E) : Resource V E × List Listener :=
  if r.cachePolicy = .noClear then (r, [])
  else ({ r with cache := [] }, r.subcriptions)

/-- Iteration of `clearAllCaches` over the registry suffix starting at index
`i`; notification events are tagged with the index of the resource whose
subscription fired, in the order the loop fires them. -/
def clearAllCachesAux {V E : Type} :
    Nat → List (Resource V E) → List (Resource V E) × List (Nat × Listener)
  | _, [] => ([], [])
  | i, r :: rest =>
      let (r', notified) := clearResource r
      let (rest', evs) := clearAllCachesAux (i + 1) rest
      (r' :: rest', notified.map (fun l => (i, l)) ++ evs)

/-- `clearAllCaches()`: for every registered resource whose policy is not
`"no-clear"`, clear its whole cache and call each of its subscription
callbacks; `"no-clear"` resources are skipped entirely. -/
def clearAllCaches {V E : Type} (registry : List (Resource V E)) :
    List (Resource V E) × List (Nat × Listener) :=
  clearAllCachesAux 0 registry

/-- Observable events of one `perform` call, in order of occurrence. -/
inductive PerformEvent where
  | fetchCall
  | notify (resourceIdx : Nat) (l : Listener)
  | resolved
  | rejected
  deriving DecidableEq, Repr

/-- `perform(mutation, params)`: `fetch` always invokes the underlying fetch
function (the module-level `fetch` never consults any cache).  On fulfilment
the `then` callback runs `clearAllCaches()` and only then resolves with the
data; on rejection the error propagates with no invalidation.  `fetchResult`
is the settlement of the underlying fetch. -/
def perform {V E : Type} (registry : List (Resource V E)) (fetchResult : Except E V) :
    List (Resource V E) × List PerformEvent × Except E V :=
  match fetchResult with
  | .ok v =>
      let (registry', evs) := clearAllCaches registry
      (registry',
        .fetchCall :: (evs.map fun e => .notify e.1 e.2) ++ [.resolved],
        .ok v)
  | .error e => (registry, [.fetchCall, .rejected], .error e)

/-! ## The query synthesizer (`buildQueryAST` / `buildSelectionSet` /
`resolveField`)

Introspected type references, the schema index (`typesMap`), field
specifications and the produced selection-set AST are embedded directly from
the source.  JavaScript `Map`s and plain objects with string keys preserve
insertion order, so both are `List (String × _)` with the `mapGet`/`mapSet`
operations above. -/

namespace Synth

/-- An introspected type reference: named leaf kinds plus the `LIST` and
`NON_NULL` wrappers (`iface` stands for the `INTERFACE` kind). -/
inductive TypeRef where
  | scalar (name : String)
  | object (name : String)
  | enum (name : String)
  | union (name : String)
  | iface (name : String)
  | inputObject (name : String)
  | listOf (ofType : TypeRef)
  | nonNull (ofType : TypeRef)
  deriving DecidableEq, Repr

/-- An introspected input value (a declared argument): name and type. -/
structure InputValue where
  name : String
  type : TypeRef
  deriving DecidableEq, Repr

/-- An introspected field of an object type. -/
structure FieldDef where
  name : String
  args : List InputValue
  type : TypeRef
  description : Option String
  deriving DecidableEq, Repr

/-- An introspected `OBJECT` type: name and field list in declaration
order. -/
structure ObjectType where
  name : String
  fields : List FieldDef
  deriving DecidableEq, Repr

/-- An entry of the schema's type list (`IntrospectionType`). -/
inductive IntroType where
  | object (t : ObjectType)
  | scalar (name : String)
  | enum (name : String)
  | union (name : String)
  | iface (name : String)
  | inputObject (name : String)
  deriving DecidableEq, Repr

def IntroType.name : IntroType → String
  | .object t => t.name
  | .scalar n => n
  | .enum n => n
  | .union n => n
  | .iface n => n
  | .inputObject n => n

/-- The schema index: `typesMap`, a `Map` from type name to definition. -/
abbrev TypesMap := List (String × IntroType)

/-- The two failure modes of synthesis: `ConfigError` thrown by the code
itself, and `invariant(...)` violations from the `invariant` package. -/
inductive SynthError where
  | configError (msg : String)
  | invariantViolation (msg : String)
  deriving DecidableEq, Repr

def SynthError.isConfigError : SynthError → Bool
  | .configError _ => true
  | .invariantViolation _ => false

/-- The inner `resolveType` of `resolveField`: unwrap `NON_NULL`/`LIST`,
look named kinds up in `typesMap`; the `SCALAR` case leaves `nextType`
undefined so the trailing `invariant(nextType != null, ...)` fires, and an
`INPUT_OBJECT` reference hits the `default` branch's
`invariant(false, "Impossible")`. -/
def resolveType (typesMap : TypesMap) (typeName fieldName : String) :
    TypeRef → Except SynthError IntroType
  | .nonNull t => resolveType typesMap typeName fieldName t
  | .listOf t => resolveType typesMap typeName fieldName t
  | .enum n =>
      match mapGet n typesMap with
      | some t => .ok t
      | none =>
          .error (.invariantViolation
            ("No type for field \"" ++ typeName ++ "." ++ fieldName ++ "\" found"))
  | .scalar _ =>
      .error (.invariantViolation
        ("No type for field \"" ++ typeName ++ "." ++ fieldName ++ "\" found"))
  | .union n =>
      match mapGet n typesMap with
      | some t => .ok t
      | none =>
          .error (.invariantViolation
            ("No type for field \"" ++ typeName ++ "." ++ fieldName ++ "\" found"))
  | .iface n =>
      match mapGet n typesMap with
      | some t => .ok t
      | none =>
          .error (.invariantViolation
            ("No type for field \"" ++ typeName ++ "." ++ fieldName ++ "\" found"))
  | .object n =>
      match mapGet n typesMap with
      | some t => .ok t
      | none =>
          .error (.invariantViolation
            ("No type for field \"" ++ typeName ++ "." ++ fieldName ++ "\" found"))
  | .inputObject _ => .error (.invariantViolation "Impossible")

/-- `resolveField(typesMap, type, fieldName)`: find the field by name
(missing field is a `ConfigError`), resolve its declared type, and require
the resolved named type to be an `OBJECT` (anything else is a
`ConfigError`). -/
def resolveField (typesMap : TypesMap) (type : ObjectType) (fieldName : String) :
    Except SynthError (FieldDef × ObjectType) :=
  match type.fields.find? (fun f => f.name == fieldName) with
  | none =>
      .error (.configError
        ("No field \"" ++ type.name ++ "." ++ fieldName ++ "\" found"))
  | some field =>
      match resolveType typesMap type.name fieldName field.type with
      | .error e => .error e
      | .ok nextType =>
          match nextType with
          | .object t => .ok (field, t)
          | _ => .error (.configError "Expected object type for nextType.kind")

/-- A `QueryFieldSpec`: a field name together with an optional list of
nested sub-selection specs. -/
inductive QueryFieldSpec where
  | mk (field : String) (require : Option (List QueryFieldSpec))

def QueryFieldSpec.field : QueryFieldSpec → String
  | .mk f _ => f

def QueryFieldSpec.require : QueryFieldSpec → Option (List QueryFieldSpec)
  | .mk _ r => r

/-- A `FieldSpec`: a display title plus its `QueryFieldSpec`. -/
structure FieldSpec where
  title : String
  require : QueryFieldSpec

/-- A selection-set entry (`FieldNode`): field name, argument names (each
argument's value is the same-named variable), and nested selection set. -/
inductive Selection where
  | field (name : String) (arguments : List String) (selectionSet : List Selection)

def Selection.name : Selection → String
  | .field n _ _ => n

def Selection.arguments : Selection → List String
  | .field _ a _ => a

mutual

/-- `makeSelectionSetFromQueryFieldSpec`: one `Field` node per nested
`require`, recursively (a sub-selection field carries no arguments). -/
def makeSelectionSetFromQueryFieldSpec : QueryFieldSpec → List Selection
  | .mk _ none => []
  | .mk _ (some reqs) => selectionsOfSpecs reqs

def selectionsOfSpecs : List QueryFieldSpec → List Selection
  | [] => []
  | q :: qs =>
      Selection.field q.field [] (makeSelectionSetFromQueryFieldSpec q) ::
        selectionsOfSpecs qs

end

/-- `makeSelectionSetFromSpec`: same construction, starting from the spec's
own `require.require` list. -/
def makeSelectionSetFromSpec (fieldSpec : FieldSpec) : List Selection :=
  match fieldSpec.require.require with
  | none => []
  | some reqs => selectionsOfSpecs reqs

/-- `isFieldNodeScalarLike`: `SCALAR` or `NON_NULL` of `SCALAR`. -/
def isFieldNodeScalarLike (field : FieldDef) : Bool :=
  match field.type with
  | .scalar _ => true
  | .nonNull (.scalar _) => true
  | _ => false

/-- Modelled from the spec: `Field.guessFieldTitle` lives in `Field.js`,
which is not among the provided sources; the spec says each implicit spec is
"titled by a human-readable guess derived from the field's name (e.g.,
snake_case → "Snake Case")". -/
def guessFieldTitle (name : String) : String :=
  String.intercalate " " ((name.splitOn "_").map String.capitalize)

/-- The `{ [name]: FieldSpec }` objects: string-keyed, insertion-ordered. -/
abbrev FieldSpecObj := List (String × FieldSpec)

/-- The fixed priority list of identity-like field names used by the
implicit field-spec ordering. -/
def COMMON_NAMES : List String :=
  ["id", "name", "first_name", "last_name", "title", "display_name", "gender", "sex"]

/-- The derived spec the implicit branch builds for one scalar-like field. -/
def implicitSpecOf (field : FieldDef) : FieldSpec :=
  { title := guessFieldTitle field.name, require := .mk field.name none }

/-- The implicit branch's first loop over `type.fields`, left to right with
accumulators: skip non-scalar-like fields, otherwise push the field onto
`fieldIntros` and `set` the derived spec into `fieldSpecsMap`. -/
def implicitIntrosAndMapAux (acc : List FieldDef × List (String × FieldSpec)) :
    List FieldDef → List FieldDef × List (String × FieldSpec)
  | [] => acc
  | field :: rest =>
      if isFieldNodeScalarLike field then
        implicitIntrosAndMapAux
          (acc.1 ++ [field], mapSet field.name (implicitSpecOf field) acc.2) rest
      else
        implicitIntrosAndMapAux acc rest

/-- The implicit branch's first loop: returns `(fieldIntros, fieldSpecsMap)`
with both in iteration order. -/
def implicitIntrosAndMap (fields : List FieldDef) :
    List FieldDef × List (String × FieldSpec) :=
  implicitIntrosAndMapAux ([], []) fields

/-- One step of the implicit branch's `COMMON_NAMES` loop: a priority name
present in `fieldSpecsMap` is emitted into the ordered object and recorded
in `seen`; an absent one is skipped. -/
def commonStep (fieldSpecsMap : List (String × FieldSpec))
    (acc : FieldSpecObj × List String) (name : String) : FieldSpecObj × List String :=
  match mapGet name fieldSpecsMap with
  | none => acc
  | some spec => (mapSet name spec acc.1, name :: acc.2)

/-- One step of the implicit branch's final loop over `fieldSpecsMap`'s
values: a spec whose field was already emitted among the priority names is
skipped, the rest are appended. -/
def remainingStep (seen : List String) (fs : FieldSpecObj) (spec : FieldSpec) :
    FieldSpecObj :=
  if seen.contains spec.require.field then fs
  else mapSet spec.require.field spec fs

/-- The implicit branch's second and third loops: emit the `COMMON_NAMES`
that are present in `fieldSpecsMap` first (recording them in `seen`), then
every remaining value of `fieldSpecsMap` in map iteration order. -/
def implicitFieldSpecs (fieldSpecsMap : List (String × FieldSpec)) : FieldSpecObj :=
  let folded := COMMON_NAMES.foldl (commonStep fieldSpecsMap) ([], [])
  (fieldSpecsMap.map Prod.snd).foldl (remainingStep folded.2) folded.1

/-- Lookup of one selected field's spec: a field missing from
`fieldSpecsMap` gets the default `ID` spec when it is named `id`, any other
missing field raises `ConfigError`. -/
def specForField (fieldSpecsMap : List (String × FieldSpec)) (field : FieldDef) :
    Except SynthError FieldSpec :=
  match mapGet field.name fieldSpecsMap with
  | some fs => .ok fs
  | none =>
      if field.name == "id" then .ok { title := "ID", require := .mk "id" none }
      else .error (.configError ("Missing field spec for " ++ field.name))

/-- The final loop of the base case: one selection per `fieldIntros` entry,
pushing each of the field's arguments into `inputValues`. -/
def buildTargetSelections (fieldSpecsMap : List (String × FieldSpec)) :
    List FieldDef → Except SynthError (List Selection × List InputValue)
  | [] => .ok ([], [])
  | field :: rest => do
      let args := field.args.map (fun a => a.name)
      let fieldSpec ← specForField fieldSpecsMap field
      let sel := Selection.field field.name args (makeSelectionSetFromSpec fieldSpec)
      let (sels, ivs) ← buildTargetSelections fieldSpecsMap rest
      .ok (sel :: sels, field.args ++ ivs)

/-- The fields selected at the target type (`fieldIntros`): under an
explicit configuration the type's fields that are requested by some spec's
`require.field` or named `id`; otherwise the scalar-like fields. -/
def selectedFields (type : ObjectType) (fieldSpecsRequested : Option FieldSpecObj) :
    List FieldDef :=
  match fieldSpecsRequested with
  | some requested =>
      let m := requested.foldl (fun m p => mapSet p.2.require.field p.2 m) []
      type.fields.filter (fun f => (mapGet f.name m).isSome || f.name == "id")
  | none => (implicitIntrosAndMap type.fields).1

/-- The `fieldSpecsMap` of the base case: keyed by each requested spec's
`require.field` under an explicit configuration, the implicit map
otherwise. -/
def fieldSpecsMapOf (type : ObjectType) (fieldSpecsRequested : Option FieldSpecObj) :
    List (String × FieldSpec) :=
  match fieldSpecsRequested with
  | some requested => requested.foldl (fun m p => mapSet p.2.require.field p.2 m) []
  | none => (implicitIntrosAndMap type.fields).2

/-- The `fieldSpecs` object the base case returns: the requested object
itself under an explicit configuration, the implicit ordered object
otherwise. -/
def fieldSpecsOf (type : ObjectType) (fieldSpecsRequested : Option FieldSpecObj) :
    FieldSpecObj :=
  match fieldSpecsRequested with
  | some requested => requested
  | none => implicitFieldSpecs (implicitIntrosAndMap type.fields).2

/-- The five components returned by `buildSelectionSet`: the selection set,
the `columns` (the target type's selections), the accumulated
`inputValues`, the field-spec mapping, and the hop description. -/
structure SelOut where
  selectionSet : List Selection
  selections : List Selection
  inputValues : List InputValue
  fieldSpecs : FieldSpecObj
  description : Option String

/-- `buildSelectionSet(typesMap, type, path, fieldSpecsRequested)`.  At path
exhaustion: with an explicit configuration, `fieldSpecsMap` is keyed by each
requested spec's `require.field`, `fieldSpecs` is returned as the requested
object itself, and `fieldIntros` keeps the type's fields that are either
requested or named `id`; with no configuration the implicit scalar-like
selection and `COMMON_NAMES` ordering apply.  On a path hop: resolve the
field, collect its arguments in front of the recursive call's, wrap the
recursive selection set in a single field node, and report this hop's
description. -/
def buildSelectionSet (typesMap : TypesMap) (type : ObjectType) (path : List String)
    (fieldSpecsRequested : Option FieldSpecObj) : Except SynthError SelOut :=
  match path with
  | [] => do
      let (selections, inputValues) ←
        buildTargetSelections (fieldSpecsMapOf type fieldSpecsRequested)
          (selectedFields type fieldSpecsRequested)
      .ok { selectionSet := selections, selections := selections,
            inputValues := inputValues,
            fieldSpecs := fieldSpecsOf type fieldSpecsRequested,
            description := none }
  | fieldName :: restPath => do
      let (field, fieldType) ← resolveField typesMap type fieldName
      let args := field.args.map (fun a => a.name)
      let out ← buildSelectionSet typesMap fieldType restPath fieldSpecsRequested
      .ok { selectionSet := [Selection.field fieldName args out.selectionSet],
            selections := out.selections,
            inputValues := field.args ++ out.inputValues,
            fieldSpecs := out.fieldSpecs,
            description := field.description }

/-- A GraphQL `TypeNode` of the produced variable definitions. -/
inductive TypeNode where
  | namedType (name : String)
  | listType (t : TypeNode)
  | nonNullType (t : TypeNode)
  deriving DecidableEq, Repr

/-- `buildTypeNode`: convert an introspected type reference to a `TypeNode`.
`NON_NULL` wraps the converted inner node after checking it is not itself
non-null; `LIST` wraps recursively; `INPUT_OBJECT`/`ENUM`/`SCALAR` become
named types; any other kind hits `invariant(false, "Unknown ...")`. -/
def buildTypeNode : TypeRef → Except SynthError TypeNode
  | .nonNull t => do
      let inner ← buildTypeNode t
      match inner with
      | .listType _ => .ok (.nonNullType inner)
      | .namedType _ => .ok (.nonNullType inner)
      | .nonNullType _ => .error (.invariantViolation "Nested NonNullType is not possible")
  | .listOf t => do
      let inner ← buildTypeNode t
      .ok (.listType inner)
  | .inputObject n => .ok (.namedType n)
  | .enum n => .ok (.namedType n)
  | .scalar n => .ok (.namedType n)
  | .object _ => .error (.invariantViolation "Unknown GraphQL introspection type")
  | .union _ => .error (.invariantViolation "Unknown GraphQL introspection type")
  | .iface _ => .error (.invariantViolation "Unknown GraphQL introspection type")

/-- A variable definition node: the variable name and its type node. -/
structure VariableDefinition where
  name : String
  type : TypeNode
  deriving DecidableEq, Repr

/-- `buildVariableDefinitionNode`: one definition per input value, named
after the argument. -/
def buildVariableDefinitionNode (iv : InputValue) : Except SynthError VariableDefinition := do
  .ok { name := iv.name, type := ← buildTypeNode iv.type }

/-- The introspection schema value handed to `buildQueryAST`: the query root
type's name and the type list. -/
structure Schema where
  queryTypeName : String
  types : List IntroType

/-- The parts of `buildQueryAST`'s result the claims are about. -/
structure QueryAST where
  selectionSet : List Selection
  columns : List Selection
  variableDefinitions : List VariableDefinition
  fieldSpecsUpdated : FieldSpecObj
  description : Option String

/-- `buildQueryAST(schema, path, fieldSpecsRequested)`: index the type list
by name, resolve and check the root query type, build the selection set, and
map each accumulated input value to a variable definition. -/
def buildQueryAST (schema : Schema) (path : List String)
    (fieldSpecsRequested : Option FieldSpecObj) : Except SynthError QueryAST := do
  let typesMap := schema.types.foldl (fun m t => mapSet t.name t m) []
  let rootObj ←
    match mapGet schema.queryTypeName typesMap with
    | none => Except.error (SynthError.configError "Expected ObjectType at the root")
    | some (.object t) => Except.ok t
    | some _ => Except.error (SynthError.configError "Expected rootType as OBJECT at the root")
  let out ← buildSelectionSet typesMap rootObj path fieldSpecsRequested
  let varDefs ← out.inputValues.mapM buildVariableDefinitionNode
  .ok { selectionSet := out.selectionSet, columns := out.selections,
        variableDefinitions := varDefs, fieldSpecsUpdated := out.fieldSpecs,
        description := out.description }

/-! ### Specification-side argument collection (for the refinement claim on
variable definitions) -/

/-- Names of the scalar-like fields of a type, in declaration order. -/
def scalarFieldNames (type : ObjectType) : List String :=
  (type.fields.filter isFieldNodeScalarLike).map FieldDef.name

/-- The implicit field-spec key order as the spec words it: the
`COMMON_NAMES` that exist among the type's scalar-like fields first, in the
fixed priority order, then the remaining scalar-like fields in declaration
order. -/
def specImplicitOrder (type : ObjectType) : List String :=
  COMMON_NAMES.filter (fun n => (scalarFieldNames type).contains n) ++
    (scalarFieldNames type).filter (fun n => !COMMON_NAMES.contains n)

/-- Whether a type reference unwraps through `NON_NULL`/`LIST` wrappers to
`SCALAR`. -/
def resolvesToScalar : TypeRef → Bool
  | .nonNull t => resolvesToScalar t
  | .listOf t => resolvesToScalar t
  | .scalar _ => true
  | _ => false

/-- Arguments as the spec describes them: every traversed hop's declared
arguments, in path order, followed by the arguments of each selected field
at the target type, in order, with no deduplication. -/
def specCollectArgs (typesMap : TypesMap) (type : ObjectType) (path : List String)
    (fieldSpecsRequested : Option FieldSpecObj) : Except SynthError (List InputValue) :=
  match path with
  | [] => .ok ((selectedFields type fieldSpecsRequested).flatMap FieldDef.args)
  | fieldName :: rest => do
      let (field, fieldType) ← resolveField typesMap type fieldName
      let restArgs ← specCollectArgs typesMap fieldType rest fieldSpecsRequested
      .ok (field.args ++ restArgs)

/-! ### Result projections and concrete example schemas -/

/-- Keys of the field-spec mapping of a successful synthesis. -/
def resultFieldSpecKeys : Except SynthError SelOut → List String
  | .ok out => out.fieldSpecs.map Prod.fst
  | .error _ => []

/-- Names selected at the target type by a successful synthesis. -/
def resultSelectionNames : Except SynthError SelOut → List String
  | .ok out => out.selections.map Selection.name
  | .error _ => []

/-- Whether a synthesis result is a `ConfigError`. -/
def resultIsConfigError : Except SynthError SelOut → Bool
  | .error (.configError _) => true
  | _ => false

/-- Whether a synthesis result is an `invariant` violation. -/
def resultIsInvariantViolation : Except SynthError SelOut → Bool
  | .error (.invariantViolation _) => true
  | _ => false

/-- Example type with a `SCALAR` field `age`, for traversal-hop error
behaviour. -/
def exPatient : ObjectType :=
  { name := "Patient"
    fields :=
      [ { name := "id", args := [], type := .nonNull (.scalar "ID"), description := none },
        { name := "age", args := [], type := .scalar "Int", description := none } ] }

/-- Example type realizing the spec's implicit-ordering example
`[email, id, display_name, age]`. -/
def exOrderType : ObjectType :=
  { name := "Example"
    fields :=
      [ { name := "email", args := [], type := .scalar "String", description := none },
        { name := "id", args := [], type := .nonNull (.scalar "ID"), description := none },
        { name := "display_name", args := [], type := .scalar "String", description := none },
        { name := "age", args := [], type := .scalar "Int", description := none } ] }

/-- Explicit configuration requesting only `email` from `exPatient`. -/
def exEmailCfg : FieldSpecObj :=
  [("contact", { title := "Email", require := .mk "email" none })]

/-- Example type with an `id` field and an `email` field, for the explicit
configuration claim. -/
def exContact : ObjectType :=
  { name := "Contact"
    fields :=
      [ { name := "id", args := [], type := .nonNull (.scalar "ID"), description := none },
        { name := "email", args := [], type := .scalar "String", description := none } ] }

/-- Example target type whose `name` field itself declares a `search`
argument. -/
def exNode : ObjectType :=
  { name := "Node"
    fields :=
      [ { name := "id", args := [], type := .nonNull (.scalar "ID"), description := none },
        { name := "name", args := [{ name := "search", type := .scalar "String" }],
          type := .scalar "String", description := none } ] }

/-- Example connection type whose `edges` hop declares a `search` argument
of its own. -/
def exConn : ObjectType :=
  { name := "PatientConnection"
    fields :=
      [ { name := "edges", args := [{ name := "search", type := .scalar "String" }],
          type := .listOf (.object "Node"), description := none } ] }

/-- Example root type whose `patients` hop declares a `search` argument. -/
def exQueryRoot : ObjectType :=
  { name := "Query"
    fields :=
      [ { name := "patients", args := [{ name := "search", type := .scalar "String" }],
          type := .object "PatientConnection", description := some "All patients" } ] }

/-- Schema index for the example schema. -/
def exTypesMap : TypesMap :=
  [("Query", .object exQueryRoot), ("PatientConnection", .object exConn),
   ("Node", .object exNode)]

/-- The successful synthesis result for the example two-hop path (with a
default value for the impossible error case). -/
def exC8out : SelOut :=
  match buildSelectionSet exTypesMap exQueryRoot ["patients", "edges"] none with
  | .ok out => out
  | .error _ =>
      { selectionSet := [], selections := [], inputValues := [], fieldSpecs := [],
        description := none }

/-- The example schema value: root type `Query`, with the connection and
node types. -/
def exSchema : Schema :=
  { queryTypeName := "Query"
    types := [.object exQueryRoot, .object exConn, .object exNode] }

/-- The successful `buildQueryAST` result for the example two-hop path
(with a default value for the impossible error case). -/
def exC8q : QueryAST :=
  match buildQueryAST exSchema ["patients", "edges"] none with
  | .ok q => q
  | .error _ =>
      { selectionSet := [], columns := [], variableDefinitions := [],
        fieldSpecsUpdated := [], description := none }

/-- The successful synthesis result for the implicit-ordering example. -/
def exC6out : SelOut :=
  match buildSelectionSet ([] : TypesMap) exOrderType [] none with
  | .ok out => out
  | .error _ =>
      { selectionSet := [], selections := [], inputValues := [], fieldSpecs := [],
        description := none }

/-- The successful synthesis result for the explicit-configuration example. -/
def exC7out : SelOut :=
  match buildSelectionSet ([] : TypesMap) exContact []
      (some [("contact", { title := "Email", require := .mk "email" none })]) with
  | .ok out => out
  | .error _ =>
      { selectionSet := [], selections := [], inputValues := [], fieldSpecs := [],
        description := none }

end Synth

/-- Example resource with `"regular"` policy, one completed key and
listener 3. -/
def exRegular : Resource Nat Nat :=
  { cachePolicy := .regular, cache := [("k", .completed 1)], subcriptions := [3] }

/-- Example resource with `"no-clear"` policy, one completed key and
listener 4. -/
def exNoClear : Resource Nat Nat :=
  { cachePolicy := .noClear, cache := [("k", .completed 2)], subcriptions := [4] }

/-- Example two-resource registry. -/
def exRegistry : List (Resource Nat Nat) := [exRegular, exNoClear]

/-! ## Theorems: resource cache -/

theorem mapGet_mapSet_self {α : Type} (k : String) (v : α) (m : List (String × α)) :
    mapGet k (mapSet k v m) = some v := by
  induction m with
  | nil => simp [mapSet, mapGet]
  | cons p rest ih =>
      obtain ⟨k', v'⟩ := p
      by_cases h : k' = k <;> simp [mapSet, mapGet, h, ih]

theorem readImpl_init {V E : Type} {cache : Cache V E} {key : String}
    (h : (mapGet key cache).getD .init = ResourceState.init) (fresh : Nat) :
    readImpl cache key fresh =
      ⟨mapSet key (.inProgress fresh) cache, .suspend fresh, true⟩ := by
  simp [readImpl, h]

theorem readImpl_inProgress {V E : Type} {cache : Cache V E} {key : String} {p : Nat}
    (h : mapGet key cache = some (.inProgress p)) (fresh : Nat) :
    readImpl cache key fresh = ⟨cache, .suspend p, false⟩ := by
  simp [readImpl, h]

theorem readImpl_completed {V E : Type} {cache : Cache V E} {key : String} {v : V}
    (h : mapGet key cache = some (.completed v)) (fresh : Nat) :
    readImpl cache key fresh = ⟨cache, .value v, false⟩ := by
  simp [readImpl, h]

theorem readImpl_error {V E : Type} {cache : Cache V E} {key : String} {e : E}
    (h : mapGet key cache = some (.error e)) (fresh : Nat) :
    readImpl cache key fresh = ⟨cache, .raise e, false⟩ := by
  simp [readImpl, h]

theorem readsBeforeSettle_inProgress {V E : Type} {cache : Cache V E} {key : String}
    {p : Nat} (h : mapGet key cache = some (.inProgress p)) (fresh n : Nat) :
    readsBeforeSettle cache key fresh n = (cache, List.replicate n (.suspend p), 0) := by
  induction n generalizing fresh with
  | zero => simp [readsBeforeSettle]
  | succ m ih => simp [readsBeforeSettle, readImpl_inProgress h, ih, List.replicate_succ]

theorem readsBeforeSettle_error {V E : Type} {cache : Cache V E} {key : String}
    {e : E} (h : mapGet key cache = some (.error e)) (fresh n : Nat) :
    readsBeforeSettle cache key fresh n = (cache, List.replicate n (.raise e), 0) := by
  induction n generalizing fresh with
  | zero => simp [readsBeforeSettle]
  | succ m ih => simp [readsBeforeSettle, readImpl_error h, ih, List.replicate_succ]

/-- C1: a read finding the key in `Init` invokes the fetch and records
`InProgress`; across `n ≥ 1` reads of that key arriving before settlement,
the underlying fetch function is invoked exactly once, every read exposes
the same pending handle, and the key stays `InProgress` on that handle. -/
theorem C1_concurrent_reads_fetch_once {V E : Type} (cache : Cache V E) (key : String)
    (fresh n : Nat)
    (hinit : (mapGet key cache).getD .init = ResourceState.init)
    (hn : 1 ≤ n) :
    (readsBeforeSettle cache key fresh n).2.2 = 1 ∧
    (readsBeforeSettle cache key fresh n).2.1 =
      List.replicate n (ReadResult.suspend fresh) ∧
    mapGet key (readsBeforeSettle cache key fresh n).1 =
      some (ResourceState.inProgress fresh) := by
  obtain ⟨m, rfl⟩ : ∃ m, n = m + 1 := ⟨n - 1, by omega⟩
  have h2 := readsBeforeSettle_inProgress
    (mapGet_mapSet_self key (.inProgress fresh) cache) (fresh + 1) m
  simp [readsBeforeSettle, readImpl_init hinit, h2, List.replicate_succ,
    mapGet_mapSet_self]

/-- Witness for C1: three reads of a fresh key on the empty cache. -/
theorem C1_concurrent_reads_fetch_once_witness :
    (((mapGet "k" ([] : Cache Nat Nat)).getD .init = ResourceState.init) ∧ 1 ≤ 3) ∧
    ((readsBeforeSettle ([] : Cache Nat Nat) "k" 7 3).2.2 = 1 ∧
      (readsBeforeSettle ([] : Cache Nat Nat) "k" 7 3).2.1 =
        List.replicate 3 (ReadResult.suspend 7) ∧
      mapGet "k" (readsBeforeSettle ([] : Cache Nat Nat) "k" 7 3).1 =
        some (ResourceState.inProgress 7)) :=
  ⟨⟨rfl, by omega⟩, C1_concurrent_reads_fetch_once [] "k" 7 3 rfl (by omega)⟩

/-- C4: a read of a `Completed{value}` key returns `value` with no fetch and
leaves the cache unchanged; reads of an `Error{error}` key raise exactly the
stored error, perform no fetch, and leave the `Error` state in place across
arbitrarily many subsequent reads. -/
theorem C4_completed_value_error_raised {V E : Type} (cache : Cache V E)
    (k1 k2 : String) (v : V) (e : E) (f1 f2 n : Nat)
    (h1 : mapGet k1 cache = some (ResourceState.completed v))
    (h2 : mapGet k2 cache = some (ResourceState.error e)) :
    readImpl cache k1 f1 = ⟨cache, ReadResult.value v, false⟩ ∧
    readsBeforeSettle cache k2 f2 n =
      (cache, List.replicate n (ReadResult.raise e), 0) :=
  ⟨readImpl_completed h1 f1, readsBeforeSettle_error h2 f2 n⟩

/-- Witness for C4: a cache holding one completed and one failed key, read
four times. -/
theorem C4_completed_value_error_raised_witness :
    ((mapGet "a" [("a", ResourceState.completed 5), ("b", ResourceState.error 9)] =
        some (ResourceState.completed (5 : Nat))) ∧
      (mapGet "b" [("a", ResourceState.completed 5), ("b", ResourceState.error 9)] =
        some (ResourceState.error (9 : Nat)))) ∧
    (readImpl [("a", ResourceState.completed 5), ("b", ResourceState.error 9)] "a" 0 =
        ⟨[("a", ResourceState.completed 5), ("b", ResourceState.error 9)],
          ReadResult.value 5, false⟩ ∧
      readsBeforeSettle
          [("a", ResourceState.completed 5), ("b", ResourceState.error 9)] "b" 0 4 =
        ([("a", ResourceState.completed 5), ("b", ResourceState.error 9)],
          List.replicate 4 (ReadResult.raise 9), 0)) :=
  ⟨⟨rfl, rfl⟩,
    C4_completed_value_error_raised _ "a" "b" 5 9 0 0 4 rfl rfl⟩

theorem clearAllCachesAux_length {V E : Type} (reg : List (Resource V E)) (j : Nat) :
    (clearAllCachesAux j reg).1.length = reg.length := by
  induction reg generalizing j with
  | nil => simp [clearAllCachesAux]
  | cons r rest ih => simp [clearAllCachesAux, ih]

theorem clearAllCachesAux_get {V E : Type} (reg : List (Resource V E)) (j i : Nat)
    (r : Resource V E) (h : reg.get? i = some r) :
    (clearAllCachesAux j reg).1.get? i = some (clearResource r).1 := by
  induction reg generalizing i j with
  | nil => simp at h
  | cons r0 rest ih =>
      cases i with
      | zero => simp_all [clearAllCachesAux]
      | succ i => simpa [clearAllCachesAux] using ih (j + 1) i (by simpa using h)

theorem clearAllCachesAux_fst_ge {V E : Type} (reg : List (Resource V E)) (j : Nat)
    (q : Nat × Listener) (hq : q ∈ (clearAllCachesAux j reg).2) : j ≤ q.1 := by
  induction reg generalizing j with
  | nil => simp [clearAllCachesAux] at hq
  | cons r0 rest ih =>
      simp only [clearAllCachesAux, List.mem_append, List.mem_map] at hq
      rcases hq with ⟨l, _, rfl⟩ | hq
      · exact Nat.le_refl j
      · exact Nat.le_of_succ_le (ih (j + 1) hq)

theorem count_pair_map (lst : List Listener) (j : Nat) (l : Listener) :
    ((lst.map fun x => ((j, x) : Nat × Listener)).count (j, l)) = lst.count l := by
  induction lst with
  | nil => simp
  | cons x xs ih => simp [List.count_cons, ih, Prod.ext_iff]

theorem count_pair_map_ne (lst : List Listener) (j j' : Nat) (l : Listener)
    (h : j ≠ j') :
    ((lst.map fun x => ((j, x) : Nat × Listener)).count (j', l)) = 0 := by
  rw [List.count_eq_zero]
  intro hmem
  rcases List.mem_map.mp hmem with ⟨x, _, hx⟩
  exact h (congrArg Prod.fst hx)

theorem clearAllCachesAux_count {V E : Type} (reg : List (Resource V E)) (j i : Nat)
    (r : Resource V E) (l : Listener) (h : reg.get? i = some r) :
    (clearAllCachesAux j reg).2.count (j + i, l) = (clearResource r).2.count l := by
  induction reg generalizing i j with
  | nil => simp at h
  | cons r0 rest ih =>
      cases i with
      | zero =>
          have hr0 : r0 = r := by simpa using h
          subst hr0
          have hzero : (clearAllCachesAux (j + 1) rest).2.count (j, l) = 0 := by
            rw [List.count_eq_zero]
            intro hmem
            have := clearAllCachesAux_fst_ge rest (j + 1) _ hmem
            omega
          simp [clearAllCachesAux, List.count_append, count_pair_map, hzero]
      | succ i =>
          have htail : rest.get? i = some r := by simpa using h
          have hmain := ih (j + 1) i htail
          have harith : j + (i + 1) = (j + 1) + i := by omega
          rw [harith]
          have hmap : ((clearResource r0).2.map fun x =>
              ((j, x) : Nat × Listener)).count ((j + 1) + i, l) = 0 :=
            count_pair_map_ne _ j ((j + 1) + i) l (by omega)
          simp [clearAllCachesAux, List.count_append, hmap, hmain]

/-- C2: `invalidateAll` iterates every registered resource; a resource whose
cache policy is not `"no-clear"` has its whole cache cleared and each of its
currently registered listeners called exactly once; a `"no-clear"` resource
is left untouched and none of its listeners fires. -/
theorem C2_invalidateAll_clears_and_notifies {V E : Type}
    (registry : List (Resource V E)) (i : Nat) (r : Resource V E)
    (hr : registry.get? i = some r)
    (hnodup : r.subcriptions.Nodup) :
    (clearAllCaches registry).1.length = registry.length ∧
    (r.cachePolicy ≠ .noClear →
      (clearAllCaches registry).1.get? i = some { r with cache := [] } ∧
      (∀ l ∈ r.subcriptions, (clearAllCaches registry).2.count (i, l) = 1) ∧
      (∀ l, l ∉ r.subcriptions → (clearAllCaches registry).2.count (i, l) = 0)) ∧
    (r.cachePolicy = .noClear →
      (clearAllCaches registry).1.get? i = some r ∧
      ∀ l, (clearAllCaches registry).2.count (i, l) = 0) := by
  have hget := clearAllCachesAux_get registry 0 i r hr
  have hcount : ∀ l, (clearAllCaches registry).2.count (i, l) =
      (clearResource r).2.count l := by
    intro l
    have := clearAllCachesAux_count registry 0 i r l hr
    simpa [clearAllCaches] using this
  refine ⟨by simpa [clearAllCaches] using clearAllCachesAux_length registry 0, ?_, ?_⟩
  · intro hpol
    have hcr : clearResource r = ({ r with cache := [] }, r.subcriptions) := by
      simp [clearResource, hpol]
    refine ⟨by simpa [clearAllCaches, hcr] using hget, ?_, ?_⟩
    · intro l hl
      rw [hcount l, hcr]
      exact List.count_eq_one_of_mem hnodup hl
    · intro l hl
      rw [hcount l, hcr]
      exact List.count_eq_zero_of_not_mem hl
  · intro hpol
    have hcr : clearResource r = (r, []) := by simp [clearResource, hpol]
    refine ⟨by simpa [clearAllCaches, hcr] using hget, ?_⟩
    intro l
    rw [hcount l, hcr]
    simp

/-- Witness for C2: a registry holding one regular resource with listener 3
and one `"no-clear"` resource with listener 4. -/
theorem C2_invalidateAll_clears_and_notifies_witness :
    (exRegistry.get? 0 = some exRegular ∧ exRegular.subcriptions.Nodup) ∧
    ((clearAllCaches exRegistry).1.length = exRegistry.length ∧
      (exRegular.cachePolicy ≠ .noClear →
        (clearAllCaches exRegistry).1.get? 0 = some { exRegular with cache := [] } ∧
        (∀ l ∈ exRegular.subcriptions,
          (clearAllCaches exRegistry).2.count (0, l) = 1) ∧
        (∀ l, l ∉ exRegular.subcriptions →
          (clearAllCaches exRegistry).2.count (0, l) = 0)) ∧
      (exRegular.cachePolicy = .noClear →
        (clearAllCaches exRegistry).1.get? 0 = some exRegular ∧
        ∀ l, (clearAllCaches exRegistry).2.count (0, l) = 0)) :=
  ⟨⟨rfl, by decide⟩,
    C2_invalidateAll_clears_and_notifies exRegistry 0 exRegular rfl (by decide)⟩

/-- C3: `perform` invokes the underlying fetch first, whatever the cached
state is; on success the global invalidation (every regular resource's cache
cleared, listeners notified) is fully in effect before the result resolves —
`resolved` is the last event and everything before it is the fetch call or a
notification; on failure the registry is untouched and no listener fires. -/
theorem C3_perform_invalidates_before_resolve {V E : Type}
    (registry : List (Resource V E)) (res : Except E V) (i : Nat) (r : Resource V E)
    (hr : registry.get? i = some r) :
    (perform registry res).2.1.head? = some .fetchCall ∧
    (∀ v, res = .ok v →
      (perform registry res).2.2 = .ok v ∧
      (perform registry res).1 = (clearAllCaches registry).1 ∧
      (perform registry res).2.1.getLast? = some .resolved ∧
      (∀ ev ∈ (perform registry res).2.1.dropLast,
        ev = PerformEvent.fetchCall ∨ ∃ j l, ev = PerformEvent.notify j l) ∧
      (r.cachePolicy ≠ .noClear →
        (perform registry res).1.get? i = some { r with cache := [] })) ∧
    (∀ e, res = .error e →
      (perform registry res).2.2 = .error e ∧
      (perform registry res).1 = registry ∧
      (perform registry res).2.1 = [.fetchCall, .rejected]) := by
  refine ⟨?_, ?_, ?_⟩
  · cases res <;> simp [perform]
  · rintro v rfl
    have hshape : (perform registry (Except.ok v)).2.1 =
        (PerformEvent.fetchCall ::
          ((clearAllCaches registry).2.map fun e => PerformEvent.notify e.1 e.2)) ++
            [PerformEvent.resolved] := by
      simp [perform]
    refine ⟨by simp [perform], by simp [perform], ?_, ?_, ?_⟩
    · rw [hshape, List.getLast?_concat]
    · intro ev hev
      rw [hshape, List.dropLast_concat] at hev
      rcases List.mem_cons.mp hev with rfl | hmem
      · exact Or.inl rfl
      · rcases List.mem_map.mp hmem with ⟨q, hq, hq2⟩
        exact Or.inr ⟨q.1, q.2, hq2.symm⟩
    · intro hpol
      have hget := clearAllCachesAux_get registry 0 i r hr
      have hcr : (clearResource r).1 = { r with cache := [] } := by
        simp [clearResource, hpol]
      simp only [perform]
      simpa [clearAllCaches, hcr] using hget
  · rintro e rfl
    exact ⟨rfl, rfl, rfl⟩

/-- Witness for C3: the example registry, a successful fetch of value 5. -/
theorem C3_perform_invalidates_before_resolve_witness :
    exRegistry.get? 0 = some exRegular ∧
    ((perform exRegistry (.ok 5)).2.1.head? = some .fetchCall ∧
      (∀ v, (Except.ok 5 : Except Nat Nat) = .ok v →
        (perform exRegistry (.ok 5)).2.2 = .ok v ∧
        (perform exRegistry (.ok 5)).1 = (clearAllCaches exRegistry).1 ∧
        (perform exRegistry (.ok 5)).2.1.getLast? = some .resolved ∧
        (∀ ev ∈ (perform exRegistry (.ok 5)).2.1.dropLast,
          ev = PerformEvent.fetchCall ∨ ∃ j l, ev = PerformEvent.notify j l) ∧
        (exRegular.cachePolicy ≠ .noClear →
          (perform exRegistry (.ok 5)).1.get? 0 = some { exRegular with cache := [] })) ∧
      (∀ e, (Except.ok 5 : Except Nat Nat) = .error e →
        (perform exRegistry (.ok 5)).2.2 = .error e ∧
        (perform exRegistry (.ok 5)).1 = exRegistry ∧
        (perform exRegistry (.ok 5)).2.1 = [.fetchCall, .rejected])) :=
  ⟨rfl, C3_perform_invalidates_before_resolve exRegistry (.ok 5) 0 exRegular rfl⟩

/-- C10: when `invalidateAll` clears a regular resource's cache while a key
is `InProgress`, the in-flight fetch's settlement still writes
`Completed`/`Error` for that key into the (cleared) cache, and a read
arriving after settlement returns that value (or raises that error) without
invoking the fetch function again. -/
theorem C10_settlement_survives_invalidation {V E : Type} (r : Resource V E)
    (key : String) (p : Nat) (outcome : Except E V) (f : Nat)
    (hpol : r.cachePolicy = .regular)
    (hkey : mapGet key r.cache = some (.inProgress p)) :
    (clearAllCaches [r]).1 = [{ r with cache := [] }] ∧
    (∀ v, outcome = .ok v →
      mapGet key (settle ([] : Cache V E) key outcome) = some (.completed v) ∧
      readImpl (settle ([] : Cache V E) key outcome) key f =
        ⟨settle [] key outcome, .value v, false⟩) ∧
    (∀ e, outcome = .error e →
      mapGet key (settle ([] : Cache V E) key outcome) = some (.error e) ∧
      readImpl (settle ([] : Cache V E) key outcome) key f =
        ⟨settle [] key outcome, .raise e, false⟩) := by
  refine ⟨by simp [clearAllCaches, clearAllCachesAux, clearResource, hpol], ?_, ?_⟩
  · rintro v rfl
    have hget : mapGet key (settle ([] : Cache V E) key (.ok v)) =
        some (.completed v) := mapGet_mapSet_self key _ []
    exact ⟨hget, readImpl_completed hget f⟩
  · rintro e rfl
    have hget : mapGet key (settle ([] : Cache V E) key (.error e)) =
        some (.error e) := mapGet_mapSet_self key _ []
    exact ⟨hget, readImpl_error hget f⟩

/-- Witness for C10: a regular resource with key `"k"` in flight, settling
successfully with value 5. -/
theorem C10_settlement_survives_invalidation_witness :
    ((⟨.regular, [("k", .inProgress 2)], []⟩ : Resource Nat Nat).cachePolicy =
        .regular ∧
      mapGet "k" (⟨.regular, [("k", .inProgress 2)], []⟩ : Resource Nat Nat).cache =
        some (.inProgress 2)) ∧
    ((clearAllCaches [(⟨.regular, [("k", .inProgress 2)], []⟩ : Resource Nat Nat)]).1 =
        [⟨.regular, [], []⟩] ∧
      (∀ v, (Except.ok 5 : Except Nat Nat) = .ok v →
        mapGet "k" (settle ([] : Cache Nat Nat) "k" (.ok 5)) = some (.completed v) ∧
        readImpl (settle ([] : Cache Nat Nat) "k" (.ok 5)) "k" 9 =
          ⟨settle [] "k" (.ok 5), .value v, false⟩) ∧
      (∀ e, (Except.ok 5 : Except Nat Nat) = .error e →
        mapGet "k" (settle ([] : Cache Nat Nat) "k" (.ok 5)) = some (.error e) ∧
        readImpl (settle ([] : Cache Nat Nat) "k" (.ok 5)) "k" 9 =
          ⟨settle [] "k" (.ok 5), .raise e, false⟩)) :=
  ⟨⟨rfl, rfl⟩,
    C10_settlement_survives_invalidation ⟨.regular, [("k", .inProgress 2)], []⟩
      "k" 2 (.ok 5) 9 rfl rfl⟩

/-- C9 counterexample: `JSON.stringify` is not order-stable over object
keys.  The params `{a:1, b:2}` and `{b:2, a:1}` are structurally equal as
key→value maps, yet their cache keys differ, and after a completed fetch
under the first key a read with the second params still finds `Init` and
invokes the fetch again — they do not share a cache entry. -/
theorem C9_counterexample_key_order :
    objMapEquiv [("a", .jnum 1), ("b", .jnum 2)] [("b", .jnum 2), ("a", .jnum 1)] =
      true ∧
    cacheKey (some (.jobj [("a", .jnum 1), ("b", .jnum 2)])) ≠
      cacheKey (some (.jobj [("b", .jnum 2), ("a", .jnum 1)])) ∧
    (readImpl
        (settle ([] : Cache Nat Nat)
          (cacheKey (some (.jobj [("a", .jnum 1), ("b", .jnum 2)]))) (.ok 5))
        (cacheKey (some (.jobj [("b", .jnum 2), ("a", .jnum 1)]))) 0).fetchInvoked =
      true := by
  have h1 : cacheKey (some (.jobj [("a", .jnum 1), ("b", .jnum 2)])) =
      "\x7b\"a\":1,\"b\":2\x7d" := by
    simp [cacheKey, jsFalsy, stringify, stringifyObj]
    decide
  have h2 : cacheKey (some (.jobj [("b", .jnum 2), ("a", .jnum 1)])) =
      "\x7b\"b\":2,\"a\":1\x7d" := by
    simp [cacheKey, jsFalsy, stringify, stringifyObj]
    decide
  refine ⟨?_, ?_, ?_⟩
  · simp [objMapEquiv, jlookup, jeq]
  · rw [h1, h2]
    decide
  · rw [h1, h2]
    decide

/-- C9 (amended): the cache key is `JSON.stringify(params || {})`, which
preserves object key insertion order rather than being canonical: two
params values whose serializations coincide use the same cache entry (same
read outcome, and a value completed under one key is returned for the
other without a fetch), and absent params serialize as the empty-object
key. -/
theorem C9_amended_stringify_key {V E : Type} (cache : Cache V E)
    (p1 p2 : Option JValue) (v : V) (f : Nat)
    (h : cacheKey p1 = cacheKey p2) :
    cacheKey (none : Option JValue) = "\x7b\x7d" ∧
    readImpl cache (cacheKey p1) f = readImpl cache (cacheKey p2) f ∧
    readImpl (settle cache (cacheKey p1) (.ok v)) (cacheKey p2) f =
      ⟨settle cache (cacheKey p1) (.ok v), .value v, false⟩ := by
  refine ⟨?_, by rw [h], ?_⟩
  · simp [cacheKey, stringify, stringifyObj]
  · rw [← h]
    exact readImpl_completed (mapGet_mapSet_self _ _ _) f

/-- Witness for the amended C9: absent params and an explicit empty object
serialize identically and share one entry. -/
theorem C9_amended_stringify_key_witness :
    cacheKey (none : Option JValue) = cacheKey (some (.jobj [])) ∧
    (cacheKey (none : Option JValue) = "\x7b\x7d" ∧
      readImpl ([] : Cache Nat Nat) (cacheKey (none : Option JValue)) 0 =
        readImpl ([] : Cache Nat Nat) (cacheKey (some (.jobj []))) 0 ∧
      readImpl (settle ([] : Cache Nat Nat) (cacheKey (none : Option JValue)) (.ok 5))
          (cacheKey (some (.jobj []))) 0 =
        ⟨settle ([] : Cache Nat Nat) (cacheKey (none : Option JValue)) (.ok 5),
          .value 5, false⟩) :=
  ⟨by simp [cacheKey, jsFalsy],
    C9_amended_stringify_key [] none (some (.jobj [])) 5 0
      (by simp [cacheKey, jsFalsy])⟩

/-! ## Theorems: query synthesizer -/

namespace Synth

theorem resolveType_scalar (typesMap : TypesMap) (typeName fieldName : String)
    (ty : TypeRef) (h : resolvesToScalar ty = true) :
    resolveType typesMap typeName fieldName ty =
      .error (.invariantViolation
        ("No type for field \"" ++ typeName ++ "." ++ fieldName ++ "\" found")) := by
  induction ty with
  | nonNull t ih => exact ih (by simpa [resolvesToScalar] using h)
  | listOf t ih => exact ih (by simpa [resolvesToScalar] using h)
  | scalar n => simp [resolveType]
  | object n => simp [resolvesToScalar] at h
  | enum n => simp [resolvesToScalar] at h
  | union n => simp [resolvesToScalar] at h
  | iface n => simp [resolvesToScalar] at h
  | inputObject n => simp [resolvesToScalar] at h

/-- C5 (amended): during synthesis, a traversal hop whose name is absent
from the current object type's fields raises a `ConfigError`; a hop whose
field resolves through `NON_NULL`/`LIST` to a named non-`OBJECT` type raises
a `ConfigError`; but a hop pointing at a `SCALAR` field fails with an
`invariant` violation ("No type for field ... found"), not a `ConfigError`.
All three are raised synchronously by the pure synthesis function, before
any network access. -/
theorem C5_amended_hop_errors (typesMap : TypesMap) (type : ObjectType)
    (fieldName : String) (restPath : List String) (fs? : Option FieldSpecObj) :
    (type.fields.find? (fun f => f.name == fieldName) = none →
      buildSelectionSet typesMap type (fieldName :: restPath) fs? =
        .error (.configError
          ("No field \"" ++ type.name ++ "." ++ fieldName ++ "\" found"))) ∧
    (∀ field t, type.fields.find? (fun f => f.name == fieldName) = some field →
      resolveType typesMap type.name fieldName field.type = .ok t →
      (∀ ot, t ≠ .object ot) →
      buildSelectionSet typesMap type (fieldName :: restPath) fs? =
        .error (.configError "Expected object type for nextType.kind")) ∧
    (∀ field, type.fields.find? (fun f => f.name == fieldName) = some field →
      resolvesToScalar field.type = true →
      buildSelectionSet typesMap type (fieldName :: restPath) fs? =
        .error (.invariantViolation
          ("No type for field \"" ++ type.name ++ "." ++ fieldName ++ "\" found"))) := by
  refine ⟨?_, ?_, ?_⟩
  · intro h
    simp [buildSelectionSet, resolveField, h, Bind.bind, Except.bind]
  · intro field t hfind hres hnotObj
    cases t with
    | object ot => exact absurd rfl (hnotObj ot)
    | scalar n => simp [buildSelectionSet, resolveField, hfind, hres, Bind.bind, Except.bind]
    | enum n => simp [buildSelectionSet, resolveField, hfind, hres, Bind.bind, Except.bind]
    | union n => simp [buildSelectionSet, resolveField, hfind, hres, Bind.bind, Except.bind]
    | iface n => simp [buildSelectionSet, resolveField, hfind, hres, Bind.bind, Except.bind]
    | inputObject n => simp [buildSelectionSet, resolveField, hfind, hres, Bind.bind, Except.bind]
  · intro field hfind hscalar
    simp [buildSelectionSet, resolveField, hfind, Bind.bind, Except.bind,
      resolveType_scalar typesMap type.name fieldName field.type hscalar]

/-- Witness for the amended C5: the `Patient` type, hop `age` (a `SCALAR`
field) and hop `ghost` (no such field). -/
theorem C5_amended_hop_errors_witness :
    (exPatient.fields.find? (fun f => f.name == "ghost") = none ∧
      buildSelectionSet ([] : TypesMap) exPatient ["ghost"] none =
        .error (.configError "No field \"Patient.ghost\" found")) ∧
    (exPatient.fields.find? (fun f => f.name == "age") =
        some { name := "age", args := [], type := .scalar "Int", description := none } ∧
      resolvesToScalar (TypeRef.scalar "Int") = true ∧
      buildSelectionSet ([] : TypesMap) exPatient ["age"] none =
        .error (.invariantViolation "No type for field \"Patient.age\" found")) := by
  have h := C5_amended_hop_errors ([] : TypesMap) exPatient "ghost" [] none
  have h2 := C5_amended_hop_errors ([] : TypesMap) exPatient "age" [] none
  refine ⟨⟨by decide, ?_⟩, ⟨by decide, by decide, ?_⟩⟩
  · simpa using h.1 (by decide)
  · simpa using h2.2.2
      { name := "age", args := [], type := .scalar "Int", description := none }
      (by decide) (by decide)

/-- C5 counterexample: traversing the `SCALAR` field `Patient.age` raises an
`invariant` violation, not a `ConfigError`, contradicting the claim that any
non-object hop raises a `ConfigError`. -/
theorem C5_counterexample_scalar_hop :
    resultIsConfigError (buildSelectionSet ([] : TypesMap) exPatient ["age"] none) =
      false ∧
    resultIsInvariantViolation
        (buildSelectionSet ([] : TypesMap) exPatient ["age"] none) =
      true := by
  decide

theorem mapGet_eq_none_iff {α : Type} (k : String) (m : List (String × α)) :
    mapGet k m = none ↔ k ∉ m.map Prod.fst := by
  induction m with
  | nil => simp [mapGet]
  | cons p rest ih =>
      obtain ⟨k', v⟩ := p
      by_cases h : k' = k
      · subst h
        simp [mapGet]
      · simp only [mapGet, if_neg h, ih, List.map_cons, List.mem_cons]
        constructor
        · intro hk hor
          rcases hor with h1 | h2
          · exact h h1.symm
          · exact hk h2
        · intro hk h2
          exact hk (Or.inr h2)

theorem mapGet_isSome_iff {α : Type} (k : String) (m : List (String × α)) :
    ((mapGet k m).isSome = true) ↔ k ∈ m.map Prod.fst := by
  cases hg : mapGet k m with
  | none => simpa using (mapGet_eq_none_iff k m).mp hg
  | some v =>
      simp only [Option.isSome_some, true_iff]
      by_contra hmem
      have hnone := (mapGet_eq_none_iff k m).mpr hmem
      rw [hg] at hnone
      cases hnone

theorem mapSet_fresh {α : Type} (k : String) (v : α) (m : List (String × α))
    (h : k ∉ m.map Prod.fst) : mapSet k v m = m ++ [(k, v)] := by
  induction m with
  | nil => simp [mapSet]
  | cons p rest ih =>
      obtain ⟨k', v'⟩ := p
      rw [List.map_cons, List.mem_cons, not_or] at h
      have hne : ¬ k' = k := fun hh => h.1 hh.symm
      simp only [mapSet, if_neg hne, List.cons_append, List.cons.injEq, true_and]
      exact ih h.2

theorem buildTargetSelections_ok_shape (m : List (String × FieldSpec)) :
    ∀ (fields : List FieldDef) (sels : List Selection) (ivs : List InputValue),
      buildTargetSelections m fields = .ok (sels, ivs) →
      sels.map Selection.name = fields.map FieldDef.name ∧
      ivs = fields.flatMap FieldDef.args := by
  intro fields
  induction fields with
  | nil =>
      intro sels ivs h
      simp only [buildTargetSelections, Except.ok.injEq, Prod.mk.injEq] at h
      obtain ⟨h1, h2⟩ := h
      simp [← h1, ← h2]
  | cons field rest ih =>
      intro sels ivs h
      simp only [buildTargetSelections, Bind.bind, Except.bind] at h
      cases hspec : specForField m field with
      | error e => rw [hspec] at h; cases h
      | ok fs =>
          rw [hspec] at h
          cases hrec : buildTargetSelections m rest with
          | error e => rw [hrec] at h; cases h
          | ok pr =>
              obtain ⟨sels', ivs'⟩ := pr
              rw [hrec] at h
              simp only [Except.ok.injEq, Prod.mk.injEq] at h
              obtain ⟨h1, h2⟩ := h
              obtain ⟨ih1, ih2⟩ := ih sels' ivs' hrec
              subst h1 h2
              simp [Selection.name, ih1, ih2]

theorem buildSelectionSet_nil_ok (typesMap : TypesMap) (type : ObjectType)
    (fs? : Option FieldSpecObj) (out : SelOut)
    (h : buildSelectionSet typesMap type [] fs? = .ok out) :
    ∃ sels ivs,
      buildTargetSelections (fieldSpecsMapOf type fs?) (selectedFields type fs?) =
        .ok (sels, ivs) ∧
      out = ⟨sels, sels, ivs, fieldSpecsOf type fs?, none⟩ := by
  simp only [buildSelectionSet, Bind.bind, Except.bind] at h
  cases hb : buildTargetSelections (fieldSpecsMapOf type fs?) (selectedFields type fs?) with
  | error e => rw [hb] at h; cases h
  | ok pr =>
      obtain ⟨sels, ivs⟩ := pr
      rw [hb] at h
      simp only [Except.ok.injEq] at h
      exact ⟨sels, ivs, rfl, h.symm⟩

/-- C7 (amended): with an explicit field configuration and a target type
having an `id` field, the synthesized selection set at the target type
always selects `id` even when no configured entry requests it, but the
field-spec mapping returned is exactly the requested mapping — no `id`
spec is merged into it. -/
theorem C7_amended_id_selected_not_merged (typesMap : TypesMap) (type : ObjectType)
    (cfg : FieldSpecObj) (out : SelOut)
    (hok : buildSelectionSet typesMap type [] (some cfg) = .ok out)
    (hid : "id" ∈ type.fields.map FieldDef.name) :
    out.fieldSpecs = cfg ∧ "id" ∈ out.selections.map Selection.name := by
  obtain ⟨sels, ivs, hb, rfl⟩ := buildSelectionSet_nil_ok typesMap type (some cfg) out hok
  refine ⟨rfl, ?_⟩
  obtain ⟨hnames, _⟩ := buildTargetSelections_ok_shape _ _ _ _ hb
  show "id" ∈ sels.map Selection.name
  rw [hnames]
  obtain ⟨f, hf, hfname⟩ := List.mem_map.mp hid
  refine List.mem_map.mpr ⟨f, ?_, hfname⟩
  simp only [selectedFields]
  exact List.mem_filter.mpr ⟨hf, by simp [hfname]⟩

/-- Witness for the amended C7: the `Contact` type with an explicit
configuration requesting only `email`. -/
theorem C7_amended_id_selected_not_merged_witness :
    (buildSelectionSet ([] : TypesMap) exContact [] (some exEmailCfg) = .ok exC7out ∧
      "id" ∈ exContact.fields.map FieldDef.name) ∧
    (exC7out.fieldSpecs = exEmailCfg ∧
      "id" ∈ exC7out.selections.map Selection.name) :=
  ⟨⟨rfl, by decide⟩,
    C7_amended_id_selected_not_merged ([] : TypesMap) exContact exEmailCfg exC7out
      rfl (by decide)⟩

/-- C7 counterexample: with the explicit configuration requesting only
`email` on the `Contact` type, the selection set selects `id` and `email`,
but the returned field-spec mapping still has only the key `contact` — the
claimed merged `id` field spec is absent. -/
theorem C7_counterexample_no_id_in_mapping :
    resultSelectionNames
        (buildSelectionSet ([] : TypesMap) exContact [] (some exEmailCfg)) =
      ["id", "email"] ∧
    resultFieldSpecKeys
        (buildSelectionSet ([] : TypesMap) exContact [] (some exEmailCfg)) =
      ["contact"] ∧
    "id" ∉ resultFieldSpecKeys
        (buildSelectionSet ([] : TypesMap) exContact [] (some exEmailCfg)) := by
  exact ⟨by decide, by decide, by decide⟩

theorem implicitIntrosAndMapAux_spec :
    ∀ (fields : List FieldDef) (intros0 : List FieldDef)
      (m0 : List (String × FieldSpec)),
      (∀ f ∈ fields, isFieldNodeScalarLike f = true → f.name ∉ m0.map Prod.fst) →
      ((fields.filter isFieldNodeScalarLike).map FieldDef.name).Nodup →
      implicitIntrosAndMapAux (intros0, m0) fields =
        (intros0 ++ fields.filter isFieldNodeScalarLike,
          m0 ++ (fields.filter isFieldNodeScalarLike).map
            (fun f => (f.name, implicitSpecOf f))) := by
  intro fields
  induction fields with
  | nil =>
      intro intros0 m0 _ _
      simp [implicitIntrosAndMapAux]
  | cons field rest ih =>
      intro intros0 m0 hdisj hnodup
      by_cases hs : isFieldNodeScalarLike field = true
      · have hfresh : field.name ∉ m0.map Prod.fst := hdisj field (by simp) hs
        rw [List.filter_cons_of_pos hs] at hnodup ⊢
        rw [List.map_cons, List.nodup_cons] at hnodup
        have hstep : implicitIntrosAndMapAux (intros0, m0) (field :: rest) =
            implicitIntrosAndMapAux
              (intros0 ++ [field], m0 ++ [(field.name, implicitSpecOf field)]) rest := by
          simp [implicitIntrosAndMapAux, hs, mapSet_fresh _ _ _ hfresh]
        rw [hstep, ih (intros0 ++ [field]) (m0 ++ [(field.name, implicitSpecOf field)])
          ?_ hnodup.2]
        · simp [List.append_assoc]
        · intro f hf hfs
          have h1 := hdisj f (List.mem_cons_of_mem _ hf) hfs
          have h2 : f.name ≠ field.name := by
            intro hh
            exact hnodup.1 (hh ▸ List.mem_map_of_mem FieldDef.name
              (List.mem_filter.mpr ⟨hf, hfs⟩))
          simp [List.map_append, h1, h2]
      · have hstep : implicitIntrosAndMapAux (intros0, m0) (field :: rest) =
            implicitIntrosAndMapAux (intros0, m0) rest := by
          simp [implicitIntrosAndMapAux, hs]
        rw [List.filter_cons_of_neg hs] at hnodup ⊢
        rw [hstep, ih intros0 m0 (fun f hf hfs => hdisj f (List.mem_cons_of_mem _ hf) hfs)
          hnodup]

theorem implicitIntrosAndMap_eq (fields : List FieldDef)
    (hnodup : ((fields.filter isFieldNodeScalarLike).map FieldDef.name).Nodup) :
    implicitIntrosAndMap fields =
      (fields.filter isFieldNodeScalarLike,
        (fields.filter isFieldNodeScalarLike).map (fun f => (f.name, implicitSpecOf f))) := by
  simpa [implicitIntrosAndMap] using
    implicitIntrosAndMapAux_spec fields [] [] (by simp) hnodup

theorem commonFold_spec (m : List (String × FieldSpec)) :
    ∀ (names : List String) (fs0 : FieldSpecObj) (seen0 : List String),
      (∀ n ∈ names, n ∉ fs0.map Prod.fst) →
      names.Nodup →
      ((names.foldl (commonStep m) (fs0, seen0)).1.map Prod.fst =
        fs0.map Prod.fst ++ names.filter (fun n => (mapGet n m).isSome)) ∧
      (∀ x, x ∈ (names.foldl (commonStep m) (fs0, seen0)).2 ↔
        x ∈ seen0 ∨ (x ∈ names ∧ (mapGet x m).isSome = true)) := by
  intro names
  induction names with
  | nil =>
      intro fs0 seen0 _ _
      simp
  | cons n rest ih =>
      intro fs0 seen0 hfresh hnodup
      rw [List.foldl_cons]
      cases hg : mapGet n m with
      | none =>
          have hstep : commonStep m (fs0, seen0) n = (fs0, seen0) := by
            simp [commonStep, hg]
          rw [hstep]
          obtain ⟨ihk, ihs⟩ := ih fs0 seen0
            (fun x hx => hfresh x (List.mem_cons_of_mem _ hx))
            (List.Nodup.of_cons hnodup)
          refine ⟨?_, ?_⟩
          · rw [ihk, List.filter_cons_of_neg (by simp [hg])]
          · intro x
            rw [ihs x]
            constructor
            · rintro (h | ⟨hx, hs⟩)
              · exact Or.inl h
              · exact Or.inr ⟨List.mem_cons_of_mem _ hx, hs⟩
            · rintro (h | ⟨hx, hs⟩)
              · exact Or.inl h
              · rcases List.mem_cons.mp hx with rfl | hx'
                · rw [hg] at hs
                  cases hs
                · exact Or.inr ⟨hx', hs⟩
      | some spec =>
          have hfreshn : n ∉ fs0.map Prod.fst := hfresh n (by simp)
          have hstep : commonStep m (fs0, seen0) n =
              (fs0 ++ [(n, spec)], n :: seen0) := by
            simp [commonStep, hg, mapSet_fresh n spec fs0 hfreshn]
          rw [hstep]
          have hnotmem : n ∉ rest := (List.nodup_cons.mp hnodup).1
          obtain ⟨ihk, ihs⟩ := ih (fs0 ++ [(n, spec)]) (n :: seen0)
            (fun x hx => by
              have h1 := hfresh x (List.mem_cons_of_mem _ hx)
              have hxn : x ≠ n := fun hh => hnotmem (hh ▸ hx)
              simp [List.map_append, h1, hxn])
            (List.nodup_cons.mp hnodup).2
          refine ⟨?_, ?_⟩
          · rw [ihk, List.filter_cons_of_pos (by simp [hg])]
            simp [List.append_assoc]
          · intro x
            rw [ihs x]
            constructor
            · rintro (h | ⟨hx, hs⟩)
              · rcases List.mem_cons.mp h with rfl | h'
                · exact Or.inr ⟨by simp, by simp [hg]⟩
                · exact Or.inl h'
              · exact Or.inr ⟨List.mem_cons_of_mem _ hx, hs⟩
            · rintro (h | ⟨hx, hs⟩)
              · exact Or.inl (List.mem_cons_of_mem _ h)
              · rcases List.mem_cons.mp hx with rfl | hx'
                · exact Or.inl (by simp)
                · exact Or.inr ⟨hx', hs⟩

theorem remainingFold_keys :
    ∀ (vals : List FieldSpec) (seen : List String) (fs0 : FieldSpecObj),
      (∀ s ∈ vals, seen.contains s.require.field = false →
        s.require.field ∉ fs0.map Prod.fst) →
      ((vals.map (fun s => s.require.field)).Nodup) →
      (vals.foldl (remainingStep seen) fs0).map Prod.fst =
        fs0.map Prod.fst ++
          (vals.filter (fun s => !seen.contains s.require.field)).map
            (fun s => s.require.field) := by
  intro vals
  induction vals with
  | nil =>
      intro seen fs0 _ _
      simp
  | cons s rest ih =>
      intro seen fs0 hfresh hnodup
      rw [List.foldl_cons]
      cases hc : seen.contains s.require.field with
      | true =>
          have hmem : s.require.field ∈ seen := List.elem_iff.mp hc
          have hstep : remainingStep seen fs0 s = fs0 := by
            simp [remainingStep, hmem]
          rw [hstep, ih seen fs0
            (fun t ht hcf => hfresh t (List.mem_cons_of_mem _ ht) hcf)
            (List.nodup_cons.mp hnodup).2,
            List.filter_cons_of_neg (by simp [hmem])]
      | false =>
          have hnmem : s.require.field ∉ seen := by
            intro hm
            have hcontra : seen.contains s.require.field = true := List.elem_iff.mpr hm
            rw [hc] at hcontra
            cases hcontra
          have hfr := hfresh s (by simp) hc
          have hstep : remainingStep seen fs0 s =
              fs0 ++ [(s.require.field, s)] := by
            simp [remainingStep, hnmem, mapSet_fresh _ _ _ hfr]
          rw [hstep]
          have hhead : s.require.field ∉ rest.map (fun t => t.require.field) :=
            (List.nodup_cons.mp hnodup).1
          rw [ih seen (fs0 ++ [(s.require.field, s)])
            (fun t ht hcf => by
              have h1 := hfresh t (List.mem_cons_of_mem _ ht) hcf
              have h2 : t.require.field ≠ s.require.field := fun hh =>
                hhead (hh ▸ List.mem_map_of_mem _ ht)
              simp [List.map_append, h1, h2])
            (List.nodup_cons.mp hnodup).2,
            List.filter_cons_of_pos (by simp [hnmem])]
          simp [List.append_assoc]

theorem implicitFieldSpecs_keys (fields' : List FieldDef)
    (hnodupS : (fields'.map FieldDef.name).Nodup) :
    (implicitFieldSpecs (fields'.map (fun f => (f.name, implicitSpecOf f)))).map
        Prod.fst =
      COMMON_NAMES.filter (fun n => (fields'.map FieldDef.name).contains n) ++
        (fields'.map FieldDef.name).filter (fun n => !COMMON_NAMES.contains n) := by
  have boolExt : ∀ (a b : Bool), (a = true ↔ b = true) → a = b := by decide
  set m := fields'.map (fun f => (f.name, implicitSpecOf f)) with hmdef
  have hkeysm : m.map Prod.fst = fields'.map FieldDef.name := by
    simp [hmdef, List.map_map, Function.comp_def]
  obtain ⟨hck, hcs⟩ := commonFold_spec m COMMON_NAMES [] [] (by simp) (by decide)
  have hpres : ∀ n, ((mapGet n m).isSome) =
      ((fields'.map FieldDef.name).contains n) := by
    intro n
    apply boolExt
    rw [mapGet_isSome_iff, hkeysm]
    exact List.elem_iff.symm
  have hseen : ∀ x, ((COMMON_NAMES.foldl (commonStep m) ([], [])).2.contains x = true) ↔
      (x ∈ COMMON_NAMES ∧ x ∈ fields'.map FieldDef.name) := by
    intro x
    rw [List.elem_iff, hcs x]
    rw [mapGet_isSome_iff, hkeysm]
    simp
  have hvals : m.map Prod.snd = fields'.map implicitSpecOf := by
    simp [hmdef, List.map_map, Function.comp_def]
  have hvalsfield : (fields'.map implicitSpecOf).map (fun s => s.require.field) =
      fields'.map FieldDef.name := by
    simp [List.map_map, Function.comp_def, implicitSpecOf, QueryFieldSpec.field,
      QueryFieldSpec.require]
  have hfreshR : ∀ s ∈ fields'.map implicitSpecOf,
      ((COMMON_NAMES.foldl (commonStep m) ([], [])).2.contains s.require.field = false) →
      s.require.field ∉
        ((COMMON_NAMES.foldl (commonStep m) ([], [])).1.map Prod.fst) := by
    intro s hs hcf hkmem
    rw [hck] at hkmem
    simp only [List.map_nil, List.nil_append] at hkmem
    obtain ⟨hin, hpred⟩ := List.mem_filter.mp hkmem
    have hseenx : s.require.field ∈ (COMMON_NAMES.foldl (commonStep m) ([], [])).2 :=
      (hcs s.require.field).mpr (Or.inr ⟨hin, by simpa using hpred⟩)
    have hcontra : (COMMON_NAMES.foldl (commonStep m) ([], [])).2.contains
        s.require.field = true := List.elem_iff.mpr hseenx
    rw [hcf] at hcontra
    cases hcontra
  have hnodupR : ((fields'.map implicitSpecOf).map (fun s => s.require.field)).Nodup := by
    rw [hvalsfield]
    exact hnodupS
  have hrem := remainingFold_keys (fields'.map implicitSpecOf)
    (COMMON_NAMES.foldl (commonStep m) ([], [])).2
    (COMMON_NAMES.foldl (commonStep m) ([], [])).1 hfreshR hnodupR
  have hpart1 : COMMON_NAMES.filter (fun n => (mapGet n m).isSome) =
      COMMON_NAMES.filter (fun n => (fields'.map FieldDef.name).contains n) :=
    List.filter_congr (fun n _ => hpres n)
  have hpart2 : ((fields'.map implicitSpecOf).filter
      (fun s => !(COMMON_NAMES.foldl (commonStep m) ([], [])).2.contains
        s.require.field)).map (fun s => s.require.field) =
      (fields'.map FieldDef.name).filter (fun n => !COMMON_NAMES.contains n) := by
    rw [List.filter_map, List.filter_map, List.map_map]
    have hfun : ((fun s => s.require.field) ∘ implicitSpecOf) = FieldDef.name := by
      funext f
      simp [Function.comp_def, implicitSpecOf, QueryFieldSpec.field,
        QueryFieldSpec.require]
    rw [hfun]
    congr 1
    apply List.filter_congr
    intro f hf
    have hmem : f.name ∈ fields'.map FieldDef.name := List.mem_map_of_mem _ hf
    simp only [Function.comp_def]
    congr 1
    apply boolExt
    have hfield : (implicitSpecOf f).require.field = f.name := by
      simp [implicitSpecOf, QueryFieldSpec.field, QueryFieldSpec.require]
    rw [hfield, hseen f.name, List.elem_iff]
    tauto
  simp only [implicitFieldSpecs]
  rw [hvals, hrem, hck]
  simp only [List.map_nil, List.nil_append]
  rw [hpart1, hpart2]

/-- C6: with no field configuration, synthesis at the target type selects
exactly the scalar-like (`SCALAR` or `NON_NULL`-of-`SCALAR`) fields, and the
returned field-spec mapping is keyed by the priority names
`id, name, first_name, last_name, title, display_name, gender, sex` that
occur among them first, in that fixed order, followed by the remaining
scalar-like fields in the type's declaration order, with no priority name
repeated. -/
theorem C6_implicit_selection_and_order (typesMap : TypesMap) (type : ObjectType)
    (out : SelOut)
    (hok : buildSelectionSet typesMap type [] none = .ok out)
    (hnodup : (type.fields.map FieldDef.name).Nodup) :
    out.selections.map Selection.name = scalarFieldNames type ∧
    out.fieldSpecs.map Prod.fst = specImplicitOrder type := by
  obtain ⟨sels, ivs, hb, rfl⟩ := buildSelectionSet_nil_ok typesMap type none out hok
  have hnodupS : ((type.fields.filter isFieldNodeScalarLike).map FieldDef.name).Nodup :=
    hnodup.sublist (List.Sublist.map _ (List.filter_sublist _))
  have him := implicitIntrosAndMap_eq type.fields hnodupS
  obtain ⟨hnames, _⟩ := buildTargetSelections_ok_shape _ _ _ _ hb
  constructor
  · show sels.map Selection.name = scalarFieldNames type
    rw [hnames]
    simp [selectedFields, him, scalarFieldNames]
  · show (fieldSpecsOf type none).map Prod.fst = specImplicitOrder type
    have hms : fieldSpecsOf type none =
        implicitFieldSpecs ((type.fields.filter isFieldNodeScalarLike).map
          (fun f => (f.name, implicitSpecOf f))) := by
      simp [fieldSpecsOf, him]
    rw [hms, implicitFieldSpecs_keys (type.fields.filter isFieldNodeScalarLike) hnodupS]
    simp [specImplicitOrder, scalarFieldNames]

/-- Witness for C6: the spec's own example, a type with fields
`[email, id, display_name, age]`, must order as
`[id, display_name, email, age]`. -/
theorem C6_implicit_selection_and_order_witness :
    (buildSelectionSet ([] : TypesMap) exOrderType [] none = .ok exC6out ∧
      (exOrderType.fields.map FieldDef.name).Nodup) ∧
    (exC6out.selections.map Selection.name = scalarFieldNames exOrderType ∧
      exC6out.fieldSpecs.map Prod.fst = specImplicitOrder exOrderType) ∧
    specImplicitOrder exOrderType = ["id", "display_name", "email", "age"] :=
  ⟨⟨rfl, by decide⟩,
    C6_implicit_selection_and_order ([] : TypesMap) exOrderType exC6out rfl (by decide),
    by decide⟩

theorem buildVariableDefinitionNode_name (iv : InputValue) (d : VariableDefinition)
    (h : buildVariableDefinitionNode iv = .ok d) : d.name = iv.name := by
  simp only [buildVariableDefinitionNode, Bind.bind, Except.bind] at h
  cases ht : buildTypeNode iv.type with
  | error e => rw [ht] at h; cases h
  | ok t =>
      rw [ht] at h
      simp only [Except.ok.injEq] at h
      rw [← h]

theorem mapM_buildVar_names :
    ∀ (l : List InputValue) (defs : List VariableDefinition),
      l.mapM buildVariableDefinitionNode = .ok defs →
      defs.map VariableDefinition.name = l.map InputValue.name := by
  intro l
  induction l with
  | nil =>
      intro defs h
      simp only [List.mapM_nil, pure, Except.pure, Except.ok.injEq] at h
      rw [← h]
      simp
  | cons iv rest ih =>
      intro defs h
      rw [List.mapM_cons] at h
      simp only [Bind.bind, Except.bind, pure, Except.pure] at h
      cases hf : buildVariableDefinitionNode iv with
      | error e => rw [hf] at h; cases h
      | ok d =>
          rw [hf] at h
          cases hrest : rest.mapM buildVariableDefinitionNode with
          | error e => rw [hrest] at h; cases h
          | ok ds =>
              rw [hrest] at h
              simp only [Except.ok.injEq] at h
              rw [← h]
              simp only [List.map_cons]
              rw [buildVariableDefinitionNode_name iv d hf, ih ds hrest]

/-- C8: the accumulated input values of a successful synthesis are exactly
the declared arguments of every traversed hop, in path order, followed by
the arguments of each selected field at the target type, with no
deduplication (and hence empty when no arguments are encountered); the
operation's variable definitions are produced one per input value, in the
same order, named after the arguments. -/
theorem C8_arguments_in_order_no_dedup (typesMap : TypesMap) (type : ObjectType)
    (path : List String) (fs? : Option FieldSpecObj) (out : SelOut)
    (hok : buildSelectionSet typesMap type path fs? = .ok out) :
    specCollectArgs typesMap type path fs? = .ok out.inputValues ∧
    (∀ defs, out.inputValues.mapM buildVariableDefinitionNode = .ok defs →
      defs.map VariableDefinition.name = out.inputValues.map InputValue.name) ∧
    (∀ (schema : Schema) (q : QueryAST),
      schema.types.foldl (fun m t => mapSet t.name t m) [] = typesMap →
      mapGet schema.queryTypeName typesMap = some (.object type) →
      buildQueryAST schema path fs? = .ok q →
      q.variableDefinitions.map VariableDefinition.name =
        out.inputValues.map InputValue.name) := by
  have hcollect : specCollectArgs typesMap type path fs? = .ok out.inputValues := by
    induction path generalizing type out with
    | nil =>
        obtain ⟨sels, ivs, hb, rfl⟩ := buildSelectionSet_nil_ok typesMap type fs? out hok
        obtain ⟨_, hargs⟩ := buildTargetSelections_ok_shape _ _ _ _ hb
        simp [specCollectArgs, hargs]
    | cons fieldName rest ih =>
        simp only [buildSelectionSet, Bind.bind, Except.bind] at hok
        cases hrf : resolveField typesMap type fieldName with
        | error e => rw [hrf] at hok; cases hok
        | ok pr =>
            obtain ⟨field, fieldType⟩ := pr
            rw [hrf] at hok
            dsimp only at hok
            cases hrec : buildSelectionSet typesMap fieldType rest fs? with
            | error e => rw [hrec] at hok; cases hok
            | ok out' =>
                rw [hrec] at hok
                simp only [Except.ok.injEq] at hok
                subst hok
                have hrest := ih fieldType out' hrec
                simp [specCollectArgs, hrf, Bind.bind, Except.bind, hrest]
  refine ⟨hcollect, fun defs hdefs => mapM_buildVar_names _ _ hdefs, ?_⟩
  intro schema q hmap hroot hq
  simp only [buildQueryAST, Bind.bind, Except.bind, hmap, hroot] at hq
  rw [hok] at hq
  dsimp only at hq
  cases hdefs : out.inputValues.mapM buildVariableDefinitionNode with
  | error e => rw [hdefs] at hq; cases hq
  | ok defs =>
      rw [hdefs] at hq
      simp only [Except.ok.injEq] at hq
      rw [← hq]
      exact mapM_buildVar_names _ _ hdefs

/-- Witness for C8: the two-hop example where `patients`, `edges` and the
target field `name` each declare an argument named `search` — three
definitions, no deduplication. -/
theorem C8_arguments_in_order_no_dedup_witness :
    (buildSelectionSet exTypesMap exQueryRoot ["patients", "edges"] none =
        .ok exC8out) ∧
    (specCollectArgs exTypesMap exQueryRoot ["patients", "edges"] none =
        .ok exC8out.inputValues ∧
      (∀ defs, exC8out.inputValues.mapM buildVariableDefinitionNode = .ok defs →
        defs.map VariableDefinition.name = exC8out.inputValues.map InputValue.name) ∧
      (∀ (schema : Schema) (q : QueryAST),
        schema.types.foldl (fun m t => mapSet t.name t m) [] = exTypesMap →
        mapGet schema.queryTypeName exTypesMap = some (.object exQueryRoot) →
        buildQueryAST schema ["patients", "edges"] none = .ok q →
        q.variableDefinitions.map VariableDefinition.name =
          exC8out.inputValues.map InputValue.name)) ∧
    exC8out.inputValues.map InputValue.name = ["search", "search", "search"] :=
  ⟨rfl,
    C8_arguments_in_order_no_dedup exTypesMap exQueryRoot ["patients", "edges"]
      none exC8out rfl,
    by decide⟩

end Synth

end RexDB
